import Mathlib

/-!
# Verification of the INKAMI chapter-processing pipeline

A shallow embedding, in Lean 4, of the core of the INKAMI server
(`apps/server/app`): page segmentation, candidate deduplication/merging,
bubble classification, character-voice assignment with per-job memoization,
TTS orchestration with provider fallback, the job/chapter store, and page
assembly.  Each definition is translated from the corresponding Python
function; theorems at the end of the file settle the specification claims.

Conventions used throughout:
* Python `int` values that are only ever non-negative here (pixel heights,
  progress percentages, indices) are modelled as `ℕ`; Python floats that are
  merely carried around and compared for equality (voice-setting parameters)
  are modelled as `ℚ`.  Threshold comparisons on float ratios
  (`shorter/longer > 0.7`, `similarity >= 0.88`) are modelled by the
  equivalent exact rational comparisons on cross-multiplied integers.
* Python strings are modelled as `String` or `List Char`; `str.lower` is
  modelled per-character (adequate for the ASCII data this pipeline
  manipulates).
* `while` loops are modelled by fuel-indexed recursion with provably
  sufficient fuel; stateful code threads an explicit store value.
* Fallible code returns `Except String α`.
-/

namespace Inkami

/-! ## Page segmentation (`VisionService._segment_vertical_ranges`, vision.py)

The Python loop
```
while start < height:
    end = min(height, start + max_height)
    ranges.append((start, end))
    if end >= height: break
    start = max(0, end - overlap)
```
is modelled by `segmentLoop` with fuel; `max(0, end - overlap)` is truncated
subtraction on `ℕ`.  The source also computes
`step = max(400, max_height - overlap)` but never uses it (the loop advances
by `end - overlap`). -/

def segmentLoop (height maxH overlap : ℕ) : ℕ → ℕ → List (ℕ × ℕ)
  | 0, _ => []
  | fuel + 1, start =>
    if start < height then
      let e := min height (start + maxH)
      if height ≤ e then [(start, e)]
      else (start, e) :: segmentLoop height maxH overlap fuel (e - overlap)
    else []

/-- `VisionService._segment_vertical_ranges(height, max_height=1500, overlap=1000)`.
The early return handles `height ≤ max_height`; otherwise the overlap is
capped at `max_height // 2` and the loop above runs (fuel `height + 1` is
sufficient because `start` strictly increases each iteration). -/
def segmentVerticalRanges (height maxH overlap : ℕ) :
    List (ℕ × ℕ) :=
  if height ≤ maxH then [(0, height)]
  else
    segmentLoop height maxH (min overlap (maxH / 2)) (height + 1) 0

/-! ## String similarity (`difflib.SequenceMatcher`, as used by `process_chapter`)

`process_chapter` (tasks.py) scores candidate pairs with
`SequenceMatcher(None, a, b).ratio()`.  For the inputs this pipeline feeds it
(comparison keys far below difflib's autojunk threshold of 200 characters, no
junk predicate), `ratio` equals `2*M/(len a + len b)` where `M` is the total
size of the recursively chosen matching blocks: the longest common contiguous
block (ties broken by least start in `a`, then least start in `b`), plus the
blocks found recursively to its left and to its right. -/

/-- Length of the longest common prefix of two character lists. -/
def lcpLen : List Char → List Char → ℕ
  | x :: xs, y :: ys => if x = y then lcpLen xs ys + 1 else 0
  | _, _ => 0

/-- difflib `find_longest_match` over the whole windows (no junk): the triple
`(i, j, k)` maximising the common-run length `k`, ties broken by least `i`,
then least `j`.  Implemented as a fold over all start pairs in scan order with
a strict improvement test, which realises exactly that tie-breaking. -/
def bestBlock (a b : List Char) : ℕ × ℕ × ℕ :=
  ((List.range a.length).flatMap fun i =>
      (List.range b.length).map fun j => (i, j, lcpLen (a.drop i) (b.drop j))).foldl
    (fun best c => if best.2.2 < c.2.2 then c else best) (0, 0, 0)

/-- Total matched size of difflib's matching blocks, fuel-indexed (fuel bounds
the recursion depth; each recursive window is strictly shorter in `a`). -/
def matchTotalGo : ℕ → List Char → List Char → ℕ
  | 0, _, _ => 0
  | fuel + 1, a, b =>
    let best := bestBlock a b
    let i := best.1
    let j := best.2.1
    let k := best.2.2
    if k = 0 then 0
    else
      matchTotalGo fuel (a.take i) (b.take j) + k +
        matchTotalGo fuel (a.drop (i + k)) (b.drop (j + k))

/-- `M` in difflib's `ratio`: the total size of all matching blocks. -/
def matchTotal (a b : List Char) : ℕ :=
  matchTotalGo (a.length + 1) a b

/-- `SequenceMatcher(None, a, b).ratio() >= 0.88`, i.e.
`2*M/(len a + len b) ≥ 88/100`, cross-multiplied to `25*M ≥ 11*(len a + len b)`
(difflib returns `1.0` when both strings are empty). -/
def ratioGE88 (a b : List Char) : Bool :=
  if a.length + b.length = 0 then true
  else 25 * matchTotal a b ≥ 11 * (a.length + b.length)

/-! ## Deduplication / merging (STEP 2 of `process_chapter`, tasks.py)

Candidates carry `(bubble_box, normalized_text, analysis, text_lower)`; the
comparison key is `text_lower` with spaces, hyphens and line breaks removed
(`normalize_for_comparison`).  The scan takes each not-yet-used candidate `i`
in order, groups it with every other unused candidate `j` whose key either is
in a substring relation with `i`'s key with length ratio `shorter/longer`
strictly above `0.7`, or has similarity ratio at least `0.88`; the group
member with the longest key is kept (Python `max`, first maximum on ties).
Since indices below `i` are always already used, grouping only ever looks at
later unused candidates, which the recursion below realises directly. -/

/-- Analysis record attached to each candidate
(`CharacterAnalysis`, vision.py). -/
structure CharacterAnalysis where
  character_type : String
  emotion : String
  tone : String
  voice_suggestion : String
  stability : ℚ
  similarity_boost : ℚ
  style : ℚ
deriving DecidableEq, Repr

/-- One entry of `candidates` in `process_chapter`: bubble box, normalized
text, analysis.  `text_lower` is derived (`normalized_text.lower()`). -/
structure Candidate where
  box : List ℚ
  text : List Char
  analysis : CharacterAnalysis
deriving DecidableEq, Repr

/-- `text_lower` of a candidate: `normalized_text.lower()`. -/
def Candidate.lower (c : Candidate) : List Char :=
  c.text.map Char.toLower

/-- `normalize_for_comparison`: remove spaces, hyphens and line breaks. -/
def normalizeForComparison (s : List Char) : List Char :=
  s.filter fun c => !(c = ' ' || c = '-' || c = '\n' || c = '\r')

/-- The comparison key of a candidate. -/
def compKey (c : Candidate) : List Char :=
  normalizeForComparison c.lower

/-- The pairwise merge condition of STEP 2, applied to the keys of candidate
`i` (first argument) and candidate `j` (second argument):
substring relation with `shorter/longer > 0.7` (`1.0` when both empty), or
similarity `≥ 0.88`. -/
def candMatch (ki kj : List Char) : Bool :=
  let longer := max ki.length kj.length
  let shorter := min ki.length kj.length
  let substringMatch := decide (ki <:+: kj) || decide (kj <:+: ki)
  let lengthRatioOk := if longer = 0 then true else 10 * shorter > 7 * longer
  (substringMatch && lengthRatioOk) || ratioGE88 ki kj

/-- Python `max(group, key=len of comparison key)`: first maximum wins. -/
def pickLongest (c : Candidate) (group : List Candidate) : Candidate :=
  group.foldl (fun best d => if (compKey best).length < (compKey d).length then d else best) c

/-- The deduplication scan of STEP 2, fuel-indexed (the unmatched remainder
is shorter than the input, so fuel `length` suffices): the head candidate is
grouped with every later candidate whose key matches its key; the
longest-keyed member of the group is emitted and the scan recurses on the
unmatched remainder. -/
def mergeCandidatesGo : ℕ → List Candidate → List Candidate
  | 0, _ => []
  | _, [] => []
  | fuel + 1, c :: rest =>
    let k := compKey c
    pickLongest c (rest.filter fun d => candMatch k (compKey d)) ::
      mergeCandidatesGo fuel (rest.filter fun d => !candMatch k (compKey d))

/-- The deduplication scan of STEP 2 of `process_chapter`. -/
def mergeCandidates (l : List Candidate) : List Candidate :=
  mergeCandidatesGo l.length l

/-! ## Bubble classification and voice assignment (tasks.py)

`_bubble_kind_from_analysis` classifies by substring tests on the lowercased
`character_type`.  STEP 3 of `process_chapter` assigns a voice to every
deduplicated bubble, with a per-job memo (`character_voice_memory`) keyed by
the stripped, lowercased `character_type`. -/

/-- The `(voice_id, stability, similarity_boost, style)` tuple stored in
`character_voice_memory` and applied to a bubble. -/
structure VoiceChoice where
  voice_id : String
  stability : ℚ
  similarity_boost : ℚ
  style : ℚ
deriving DecidableEq, Repr

/-- Python `str.strip()`: drop surrounding whitespace. -/
def pyStrip (s : List Char) : List Char :=
  ((s.dropWhile Char.isWhitespace).reverse.dropWhile Char.isWhitespace).reverse

/-- Python `str.lower()` (per-character; the pipeline's data is ASCII). -/
def pyLower (s : List Char) : List Char :=
  s.map Char.toLower

/-- Python `needle in hay` on strings. -/
def containsSub (hay needle : List Char) : Bool :=
  decide (needle <:+: hay)

/-- `_bubble_kind_from_analysis` (tasks.py): substring checks on the
lowercased descriptor, first match wins. -/
def bubbleKind (a : CharacterAnalysis) : String :=
  let d := pyLower a.character_type.toList
  if containsSub d "system".toList || containsSub d "ui".toList ||
      containsSub d "computer".toList || containsSub d "panel".toList then "narration"
  else if containsSub d "narration".toList || containsSub d "narrator".toList then "narration"
  else if containsSub d "thought".toList then "thought"
  else if containsSub d "sfx".toList || containsSub d "sound".toList ||
      containsSub d "fx".toList then "sfx"
  else "dialogue"

/-- `character_key = (analysis.character_type or "").strip().lower()`. -/
def characterKey (a : CharacterAnalysis) : List Char :=
  pyLower (pyStrip a.character_type.toList)

/-- `reuse_allowed` in STEP 3: not narrate mode, non-empty key, key not
`unknown`/`sfx_autodetect`, bubble kind not `sfx`/`narration`. -/
def reuseAllowed (mode : String) (a : CharacterAnalysis) : Bool :=
  mode != "narrate" && characterKey a != [] &&
    !(characterKey a = "unknown".toList || characterKey a = "sfx_autodetect".toList) &&
    !(bubbleKind a = "sfx" || bubbleKind a = "narration")

/-- Lookup in the per-job voice memo (a Python dict keyed by strings). -/
def memoLookup (memo : List (List Char × VoiceChoice)) (k : List Char) : Option VoiceChoice :=
  match memo with
  | [] => none
  | (k', v) :: rest => if k' = k then some v else memoLookup rest k

/-- The voice assignment for one bubble (tasks.py lines 467-512): in narrate
mode, the narrator voice chosen by `narrator_gender` with fixed settings;
otherwise the memoised tuple when `reuse_allowed` and the key is present,
else the analysis's own suggestion — cached when `reuse_allowed` and the
suggestion is non-empty.  Returns the choice and the updated memo. -/
def assignOne (mode gender : String) (memo : List (List Char × VoiceChoice))
    (a : CharacterAnalysis) : VoiceChoice × List (List Char × VoiceChoice) :=
  if mode = "narrate" then
    (⟨if gender = "male" then "voice_narrator_m" else "voice_narrator_f",
      7/10, 17/20, 1/4⟩, memo)
  else
    let key := characterKey a
    let reuse := reuseAllowed mode a
    match if reuse then memoLookup memo key else none with
    | some v => (v, memo)
    | none =>
      let v : VoiceChoice := ⟨a.voice_suggestion, a.stability, a.similarity_boost, a.style⟩
      if reuse && a.voice_suggestion != "" then (v, (key, v) :: memo) else (v, memo)

/-- The STEP 3 loop's voice assignments, threading the memo left to right. -/
def assignVoicesGo (mode gender : String) :
    List CharacterAnalysis → List (List Char × VoiceChoice) → List VoiceChoice
  | [], _ => []
  | a :: rest, memo =>
    let r := assignOne mode gender memo a
    r.1 :: assignVoicesGo mode gender rest r.2

/-- Voice assignments for a page's deduplicated bubbles, starting from the
empty per-job memo. -/
def assignVoices (mode gender : String) (l : List CharacterAnalysis) : List VoiceChoice :=
  assignVoicesGo mode gender l []

/-! ## TTS orchestration (`TTSService`, tts.py)

`synthesize` walks the configured provider chain
(`settings.tts_provider_priority`, split on commas); a provider is attempted
only when its API key is set, any exception falls through to the next entry.
After the chain, an OpenAI key forces one more OpenAI attempt whose failure
re-raises; with no OpenAI key a `RuntimeError` is raised.  Provider calls are
modelled by outcome oracles (`none` = the call raises). -/

/-- A word timing entry (`WordTime`, schemas.py). -/
structure WordTime where
  word : String
  start : ℚ
  «end» : ℚ
deriving DecidableEq, Repr

/-- `TTSResult` (tts.py). -/
structure TTSResult where
  audio_url : String
  word_times : List WordTime
deriving DecidableEq, Repr

/-- Python `str.split()` with no argument: split on whitespace runs. -/
def pySplitWhitespace (s : String) : List String :=
  (s.split fun c => c.isWhitespace).filter fun w => w != ""

/-- The cursor fold inside `_approximate_word_times`. -/
def approxGo : ℚ → List String → List WordTime
  | _, [] => []
  | cursor, w :: ws =>
    let duration := max (1/4) ((w.length : ℚ) * (1/25))
    ⟨w, cursor, cursor + duration⟩ :: approxGo (cursor + duration) ws

/-- `TTSService._approximate_word_times`: per-word duration
`max(0.25, len(word) * 0.04)`, cumulative offsets. -/
def approximateWordTimes (text : String) : List WordTime :=
  approxGo 0 (pySplitWhitespace text)

/-- `TTSService._fallback_tts`: empty audio URL plus approximate word
timings.  (Defined in the source but never called by `synthesize`.) -/
def fallbackTTS (text voiceId : String) : TTSResult :=
  ⟨"", approximateWordTimes text⟩

/-- The environment of one `synthesize` call: the provider priority list
(already split on commas and stripped), which API keys are configured, and
the outcome of calling each provider (`none` models an exception, which
covers rate-limit exhaustion, bad credentials and network errors alike). -/
structure TTSEnv where
  providerChain : List String
  elevenKey : Bool
  openaiKey : Bool
  elevenOutcome : Option TTSResult
  openaiOutcome : Option TTSResult
deriving DecidableEq, Repr

/-- The provider loop of `synthesize`: skip entries whose key is missing,
return the first successful outcome, fall through on exceptions. -/
def synthesizeChain (env : TTSEnv) : List String → Option TTSResult
  | [] => none
  | p :: rest =>
    if p == "elevenlabs" && env.elevenKey then
      match env.elevenOutcome with
      | some r => some r
      | none => synthesizeChain env rest
    else if p == "openai" && env.openaiKey then
      match env.openaiOutcome with
      | some r => some r
      | none => synthesizeChain env rest
    else synthesizeChain env rest

/-- `TTSService.synthesize`: the provider chain, then the forced OpenAI
fallback when an OpenAI key is configured (its failure re-raises), else
`RuntimeError("No TTS providers available")`. -/
def synthesize (env : TTSEnv) : Except String TTSResult :=
  match synthesizeChain env env.providerChain with
  | some r => Except.ok r
  | none =>
    if env.openaiKey then
      match env.openaiOutcome with
      | some r => Except.ok r
      | none => Except.error "forced OpenAI fallback failed"
    else Except.error "No TTS providers available"

/-- The providers of the chain that are actually usable: present in the
priority list with their API key configured. -/
def configuredProviders (env : TTSEnv) : List String :=
  env.providerChain.filter fun p =>
    (p == "elevenlabs" && env.elevenKey) || (p == "openai" && env.openaiKey)

/-! ## The synthesize call site (STEP 3 of `process_chapter`, tasks.py)

`process_chapter` invokes
`tts_service.synthesize(delivery_text, assigned_voice, stability=…,
similarity_boost=…, style=…, tone_hint=…)`, but `synthesize` declares only
`(self, text, voice_id, stability, similarity_boost, style)`.  In Python a
keyword argument that is not a declared parameter raises `TypeError` before
the callee's body runs. -/

/-- The parameters declared by `TTSService.synthesize` (tts.py). -/
def synthesizeParamNames : List String :=
  ["text", "voice_id", "stability", "similarity_boost", "style"]

/-- The keyword arguments used at the call site in `process_chapter`
(tasks.py); `delivery_text` and `assigned_voice` are passed positionally. -/
def synthesizeCallKeywords : List String :=
  ["stability", "similarity_boost", "style", "tone_hint"]

/-- Python call semantics: every keyword argument must name a declared
parameter, otherwise the call raises `TypeError`. -/
def pythonKeywordsAccepted (params kwargs : List String) : Bool :=
  kwargs.all fun k => params.contains k

/-- The STEP 3 loop: per bubble, compute the voice assignment, then attempt
the `synthesize` call.  The keyword check models Python's argument binding;
an exception from `synthesize` itself also propagates (there is no
`try`/`except` around the call in the source). -/
def runTTSStep (env : TTSEnv) (mode gender : String) :
    List Candidate → List (List Char × VoiceChoice) →
      Except String (List (Candidate × VoiceChoice × TTSResult))
  | [], _ => Except.ok []
  | c :: rest, memo =>
    let r := assignOne mode gender memo c.analysis
    if pythonKeywordsAccepted synthesizeParamNames synthesizeCallKeywords then
      match synthesize env with
      | Except.ok tts =>
        match runTTSStep env mode gender rest r.2 with
        | Except.ok items => Except.ok ((c, r.1, tts) :: items)
        | Except.error e => Except.error e
      | Except.error e => Except.error e
    else
      Except.error "TypeError: synthesize() got an unexpected keyword argument tone_hint"

/-! ## Page assembly (tasks.py lines 541-550)

`items.sort(key=lambda item: item.bubble_box[1])` is a stable sort by the
box's top edge; `reading_order` is the id list of the sorted items. -/

/-- A produced bubble (`BubbleItem`, schemas.py; fields not relevant to the
claims are omitted). -/
structure BubbleItem where
  bubble_id : String
  bubble_box : List ℚ
  voice_id : String
  text : String
  audio_url : String
deriving DecidableEq, Repr

/-- `item.bubble_box[1]`, the top edge (boxes are `[x0, y0, x1, y1]`). -/
def BubbleItem.top (it : BubbleItem) : ℚ :=
  it.bubble_box.getD 1 0

/-- The stable sort of `items.sort(key=lambda item: item.bubble_box[1])`. -/
def sortItems (items : List BubbleItem) : List BubbleItem :=
  items.mergeSort fun a b => decide (a.top ≤ b.top)

/-- A produced page (`PagePayload`, schemas.py; claim-relevant fields). -/
structure PagePayload where
  page_index : ℕ
  items : List BubbleItem
  reading_order : List String
deriving DecidableEq, Repr

/-- Page assembly: sorted items, `reading_order` derived as their id list. -/
def assemblePage (pageIndex : ℕ) (items : List BubbleItem) : PagePayload :=
  let sorted := sortItems items
  ⟨pageIndex, sorted, sorted.map fun it => it.bubble_id⟩

/-! ## Job and chapter store (`ChapterStore`, pipeline.py)

Redis hashes are modelled by association lists with set-or-replace updates;
the worker's view of a job is a `JobRecord` (`JobStatus`, schemas.py). -/

/-- A stored job (`JobStatus`, schemas.py, minus the id it is keyed by). -/
structure JobRecord where
  status : String
  progress : ℕ
  chapter_id : Option String
  error : Option String
deriving DecidableEq, Repr

/-- A partial update (`**updates` of `ChapterStore.update_job`); only the
fields the repository actually passes are modelled, `none` = not passed. -/
structure JobUpdate where
  status : Option String
  progress : Option ℕ
  chapter_id : Option String
  error : Option String
deriving DecidableEq, Repr

/-- A stored chapter (`ChapterPayload`, schemas.py; claim-relevant fields). -/
structure ChapterRecord where
  status : String
  progress : ℕ
  pages : List PagePayload
deriving DecidableEq, Repr

/-- The store's two hashes. -/
structure Store where
  jobs : List (String × JobRecord)
  chapters : List (String × ChapterRecord)
deriving DecidableEq, Repr

/-- `redis.hget`. -/
def alistLookup {β : Type} : List (String × β) → String → Option β
  | [], _ => none
  | (k', v) :: rest, k => if k' = k then some v else alistLookup rest k

/-- `redis.hset`: replace the binding or append a new one. -/
def alistSet {β : Type} : List (String × β) → String → β → List (String × β)
  | [], k, v => [(k, v)]
  | (k', v') :: rest, k, v =>
    if k' = k then (k, v) :: rest else (k', v') :: alistSet rest k v

/-- `setattr(job, key, value)` for each passed update field. -/
def applyUpdate (r : JobRecord) (u : JobUpdate) : JobRecord :=
  ⟨u.status.getD r.status, u.progress.getD r.progress,
    match u.chapter_id with
    | some c => some c
    | none => r.chapter_id,
    match u.error with
    | some e => some e
    | none => r.error⟩

/-- `ChapterStore.create_job` (the fresh uuid is a parameter): a `queued`
job with progress 0. -/
def createJob (s : Store) (jid : String) : Store × JobRecord :=
  (⟨alistSet s.jobs jid ⟨"queued", 0, none, none⟩, s.chapters⟩,
    ⟨"queued", 0, none, none⟩)

/-- `ChapterStore.update_job`: fetch the record — falling back to a fresh
`queued`/progress-0 record when the id is unknown — apply the partial
update, store and return it. -/
def updateJob (s : Store) (jid : String) (u : JobUpdate) : Store × JobRecord :=
  let base := (alistLookup s.jobs jid).getD ⟨"queued", 0, none, none⟩
  let r := applyUpdate base u
  (⟨alistSet s.jobs jid r, s.chapters⟩, r)

/-- `ChapterStore.save_chapter`: overwrite keyed by chapter id. -/
def saveChapter (s : Store) (cid : String) (c : ChapterRecord) : Store :=
  ⟨s.jobs, alistSet s.chapters cid c⟩

/-- `enqueue_chapter_job` (tasks.py): create the job, mark it `processing`
at progress 5 with the chapter id, save the placeholder chapter.  Returns
the store and the job records written, in order. -/
def enqueueChapterJob (s : Store) (cid jid : String) : Store × List JobRecord :=
  let c1 := createJob s jid
  let c2 := updateJob c1.1 jid ⟨some "processing", some 5, some cid, none⟩
  (saveChapter c2.1 cid ⟨"processing", 5, []⟩, [c1.2, c2.2])

/-! ## The chapter-processing worker (`process_chapter`, tasks.py)

The per-page computation (vision, gap recovery, dedup, TTS) is abstracted as
an outcome oracle `pageResults`; its internals are modelled separately above.
An `Except.error` outcome is an unhandled exception escaping the page loop:
the source has no surrounding `try`/`except`, so the function simply stops —
the model returns the store as it stood. -/

/-- The per-page outcomes of one run. -/
structure PipelineEnv where
  pageResults : ℕ → Except String PagePayload

/-- The progress written after page `k` of `n`:
`10 + int(((index + 1) / total_files) * 80)` (exact floor). -/
def pageProgress (k n : ℕ) : ℕ :=
  10 + 80 * k / n

/-- The page loop of `process_chapter`, recursing on the count of remaining
pages (`i` is the current page index): on success of page `i`, record
progress and continue; an unhandled exception aborts with the store and the
job-record trace as they stand. -/
def processPages (env : PipelineEnv) (n : ℕ) (jid : Option String) :
    ℕ → ℕ → List PagePayload → Store → List JobRecord →
      Store × List JobRecord × Except String (List PagePayload)
  | _, 0, acc, s, trace => (s, trace, Except.ok acc)
  | i, rem + 1, acc, s, trace =>
    match env.pageResults i with
    | Except.error e => (s, trace, Except.error e)
    | Except.ok p =>
      match jid with
      | some j =>
        let u := updateJob s j ⟨none, some (pageProgress (i + 1) n), none, none⟩
        processPages env n jid (i + 1) rem (acc ++ [p]) u.1 (trace ++ [u.2])
      | none => processPages env n jid (i + 1) rem (acc ++ [p]) s trace

/-- `process_chapter`: empty file list returns immediately; otherwise run
the page loop over all `n` pages, then persist the `ready` chapter and mark
the job `ready` at progress 100.  Returns the final store, the job records
written by this call, and the run's outcome. -/
def processChapter (env : PipelineEnv) (s : Store) (cid : String) (n : ℕ)
    (jid : Option String) : Store × List JobRecord × Except String Unit :=
  if n = 0 then (s, [], Except.ok ())
  else
    match processPages env n jid 0 n [] s [] with
    | (s1, trace, Except.error e) => (s1, trace, Except.error e)
    | (s1, trace, Except.ok pages) =>
      let s2 := saveChapter s1 cid ⟨"ready", 100, pages⟩
      match jid with
      | some j =>
        let u := updateJob s2 j ⟨some "ready", some 100, none, none⟩
        (u.1, trace ++ [u.2], Except.ok ())
      | none => (s2, trace, Except.ok ())

/-- One full job: `enqueue_chapter_job` followed by the queued
`process_chapter` call, with the job records written in order. -/
def runChapterJob (env : PipelineEnv) (s : Store) (cid jid : String) (n : ℕ) :
    Store × List JobRecord × Except String Unit :=
  let e := enqueueChapterJob s cid jid
  let p := processChapter env e.1 cid n (some jid)
  (p.1, e.2 ++ p.2.1, p.2.2)

/-! ## Shared helper lemmas -/

theorem alistLookup_set {β : Type} (l : List (String × β)) (k : String) (v : β) :
    alistLookup (alistSet l k v) k = some v := by
  induction l with
  | nil => simp [alistSet, alistLookup]
  | cons hd tl ih =>
    obtain ⟨k', v'⟩ := hd
    by_cases hk : k' = k <;> simp [alistSet, alistLookup, hk, ih]

theorem updateJob_jobs (s : Store) (jid : String) (u : JobUpdate) (r : JobRecord)
    (h : alistLookup s.jobs jid = some r) :
    alistLookup (updateJob s jid u).1.jobs jid = some (applyUpdate r u) := by
  simp only [updateJob, h, Option.getD_some]
  exact alistLookup_set _ _ _

theorem updateJob_chapters (s : Store) (jid : String) (u : JobUpdate) :
    (updateJob s jid u).1.chapters = s.chapters := rfl

theorem enqueue_job_lookup (s : Store) (cid jid : String) :
    alistLookup (enqueueChapterJob s cid jid).1.jobs jid =
      some ⟨"processing", 5, some cid, none⟩ := by
  simp only [enqueueChapterJob, saveChapter, createJob, updateJob,
    alistLookup_set, Option.getD_some]
  rfl

/-! ## Claim C10 — `update_job` on an unknown job id -/

/-- C10 counterexample: on a store that does not contain job `job-1`,
`update_job("job-1", progress=42)` does not fail; it returns a job record
(a fresh `queued` job with the update applied) and persists it, so the job
now exists in the store.  This refutes the claim that `updateJob` fails for
unknown ids and never creates a job. -/
theorem updateJob_unknown_creates_counterexample :
    alistLookup (Store.mk [] []).jobs "job-1" = none ∧
    (updateJob ⟨[], []⟩ "job-1" ⟨none, some 42, none, none⟩).2 =
      ⟨"queued", 42, none, none⟩ ∧
    alistLookup (updateJob ⟨[], []⟩ "job-1" ⟨none, some 42, none, none⟩).1.jobs
        "job-1" = some ⟨"queued", 42, none, none⟩ :=
  ⟨rfl, rfl, rfl⟩

/-- C10 amended: for every job id not present in the store,
`updateJob(jobId, partialFields)` silently creates a job — it falls back to
a fresh `queued`/progress-0 record, applies the partial fields, persists the
result under that id and returns it; it never signals an error. -/
theorem updateJob_unknown_creates (s : Store) (jid : String) (u : JobUpdate)
    (h : alistLookup s.jobs jid = none) :
    (updateJob s jid u).2 = applyUpdate ⟨"queued", 0, none, none⟩ u ∧
    alistLookup (updateJob s jid u).1.jobs jid =
      some (applyUpdate ⟨"queued", 0, none, none⟩ u) := by
  refine ⟨?_, ?_⟩
  · simp [updateJob, h]
  · simp only [updateJob, h, Option.getD_none]
    exact alistLookup_set _ _ _

/-- C10 amended, witnessed on a store holding one other job. -/
theorem updateJob_unknown_creates_witness :
    (updateJob ⟨[("other", ⟨"queued", 0, none, none⟩)], []⟩ "j"
        ⟨some "processing", none, none, none⟩).2 =
      applyUpdate ⟨"queued", 0, none, none⟩ ⟨some "processing", none, none, none⟩ ∧
    alistLookup (updateJob ⟨[("other", ⟨"queued", 0, none, none⟩)], []⟩ "j"
          ⟨some "processing", none, none, none⟩).1.jobs "j" =
      some (applyUpdate ⟨"queued", 0, none, none⟩ ⟨some "processing", none, none, none⟩) :=
  updateJob_unknown_creates _ _ _ (by decide)

/-! ## Claim C3 — the `tone_hint` keyword argument -/

/-- C3: `process_chapter` passes the keyword argument `tone_hint` to
`TTSService.synthesize`, whose parameters are only `text`, `voice_id`,
`stability`, `similarity_boost` and `style`; Python therefore raises
`TypeError` at the call itself.  Consequently, for every page with at least
one accepted candidate bubble, the STEP 3 loop fails on its first bubble —
under every TTS environment, so no provider is ever reached and no audio is
produced. -/
theorem synthesize_toneHint_typeError (env : TTSEnv) (mode gender : String)
    (bubbles : List Candidate) (memo : List (List Char × VoiceChoice))
    (h : bubbles ≠ []) :
    pythonKeywordsAccepted synthesizeParamNames synthesizeCallKeywords = false ∧
    runTTSStep env mode gender bubbles memo =
      Except.error "TypeError: synthesize() got an unexpected keyword argument tone_hint" := by
  refine ⟨by decide, ?_⟩
  match bubbles with
  | [] => exact absurd rfl h
  | c :: rest =>
    simp [runTTSStep,
      show pythonKeywordsAccepted synthesizeParamNames synthesizeCallKeywords = false
        from by decide]

/-- C3, witnessed on a concrete bubble and an environment whose provider
would succeed: the call still fails. -/
theorem synthesize_toneHint_typeError_witness :
    runTTSStep ⟨["elevenlabs"], true, false, some ⟨"https://audio", []⟩, none⟩
        "bring_to_life" "female"
        [⟨[0, 0, 1, 1], "hi".toList,
          ⟨"adult_male", "neutral", "normal", "voice_adult_m", 1/2, 3/4, 1/5⟩⟩] [] =
      Except.error "TypeError: synthesize() got an unexpected keyword argument tone_hint" :=
  (synthesize_toneHint_typeError _ _ _ _ _ (List.cons_ne_nil _ _)).2

/-! ## Claim C1 — exhausted provider chain -/

/-- A `synthesize` environment with one configured provider (ElevenLabs,
key set) whose attempt fails, and no OpenAI key. -/
def c1FailEnv : TTSEnv :=
  ⟨["elevenlabs"], true, false, none, none⟩

/-- C1 counterexample: with exactly one configured provider whose attempt
fails, `synthesize` raises (`RuntimeError("No TTS providers available")`);
it does not return the degraded empty-audio result — `_fallback_tts` is
never invoked by `synthesize`. -/
theorem synthesize_allFail_raises_counterexample :
    configuredProviders c1FailEnv = ["elevenlabs"] ∧
    synthesize c1FailEnv = Except.error "No TTS providers available" :=
  ⟨rfl, rfl⟩

/-- The provider loop yields nothing when every outcome is a failure. -/
theorem synthesizeChain_allFail (env : TTSEnv)
    (he : env.elevenOutcome = none) (ho : env.openaiOutcome = none) :
    ∀ l, synthesizeChain env l = none := by
  intro l
  induction l with
  | nil => rfl
  | cons p rest ih =>
    simp only [synthesizeChain, he, ho]
    split <;> simp [ih]

/-- C1 amended: whenever every provider attempt fails (regardless of which
providers are configured), `synthesize` signals a hard failure — it never
returns a degraded result.  The degraded empty-audio result exists in the
source as `_fallback_tts` but is unreachable from `synthesize`. -/
theorem synthesize_allFail_raises (env : TTSEnv)
    (he : env.elevenOutcome = none) (ho : env.openaiOutcome = none) :
    ∃ msg, synthesize env = Except.error msg := by
  unfold synthesize
  rw [synthesizeChain_allFail env he ho]
  by_cases hk : env.openaiKey <;> simp [hk, ho]

/-- C1 amended, witnessed with both providers configured and failing. -/
theorem synthesize_allFail_raises_witness :
    ∃ msg, synthesize ⟨["elevenlabs", "openai"], true, true, none, none⟩ =
      Except.error msg :=
  synthesize_allFail_raises _ rfl rfl

/-! ## Claim C8 — reading order -/

/-- C8: for every assembled page, `reading_order` is exactly the id list of
`items` (which are the input bubbles stably sorted by ascending
`bubble_box[1]`); it is sorted by top edge, a permutation of the input ids,
and duplicate-free whenever the input ids are. -/
theorem readingOrder_spec (pageIndex : ℕ) (items : List BubbleItem)
    (hids : (items.map fun it => it.bubble_id).Nodup) :
    (assemblePage pageIndex items).reading_order =
      (assemblePage pageIndex items).items.map (fun it => it.bubble_id) ∧
    List.Sorted (fun a b : BubbleItem => a.top ≤ b.top)
      (assemblePage pageIndex items).items ∧
    ((assemblePage pageIndex items).reading_order).Perm
      (items.map fun it => it.bubble_id) ∧
    ((assemblePage pageIndex items).reading_order).Nodup := by
  have hperm : ((sortItems items).map fun it => it.bubble_id).Perm
      (items.map fun it => it.bubble_id) :=
    (List.mergeSort_perm items _).map _
  refine ⟨rfl, ?_, hperm, hperm.nodup_iff.mpr hids⟩
  have h := @List.sorted_mergeSort BubbleItem
    (fun a b : BubbleItem => decide (a.top ≤ b.top))
    (fun a b c hab hbc => by
      simp only [decide_eq_true_eq] at *
      exact le_trans hab hbc)
    (fun a b => by
      simp only [Bool.or_eq_true, decide_eq_true_eq]
      exact le_total a.top b.top) items
  exact h.imp fun {a b} hab => by simpa using hab

/-- C8, witnessed on a concrete two-bubble page given out of order. -/
theorem readingOrder_spec_witness :
    (assemblePage 0 [⟨"bubble_0_0", [0, 9, 5, 12], "v", "b", ""⟩,
        ⟨"bubble_0_1", [0, 2, 5, 4], "a", "a", ""⟩]).reading_order =
      (assemblePage 0 [⟨"bubble_0_0", [0, 9, 5, 12], "v", "b", ""⟩,
          ⟨"bubble_0_1", [0, 2, 5, 4], "a", "a", ""⟩]).items.map
        (fun it => it.bubble_id) ∧
    List.Sorted (fun a b : BubbleItem => a.top ≤ b.top)
      (assemblePage 0 [⟨"bubble_0_0", [0, 9, 5, 12], "v", "b", ""⟩,
          ⟨"bubble_0_1", [0, 2, 5, 4], "a", "a", ""⟩]).items ∧
    ((assemblePage 0 [⟨"bubble_0_0", [0, 9, 5, 12], "v", "b", ""⟩,
          ⟨"bubble_0_1", [0, 2, 5, 4], "a", "a", ""⟩]).reading_order).Perm
      ([⟨"bubble_0_0", [0, 9, 5, 12], "v", "b", ""⟩,
          (⟨"bubble_0_1", [0, 2, 5, 4], "a", "a", ""⟩ : BubbleItem)].map
        fun it => it.bubble_id) ∧
    ((assemblePage 0 [⟨"bubble_0_0", [0, 9, 5, 12], "v", "b", ""⟩,
          ⟨"bubble_0_1", [0, 2, 5, 4], "a", "a", ""⟩]).reading_order).Nodup :=
  readingOrder_spec 0 _ (by decide)

/-! ## Claims C4 and C5 — deduplication -/

/-- The shared dummy analysis used by the concrete dedup examples. -/
def demoAnalysis : CharacterAnalysis :=
  ⟨"adult_male", "neutral", "normal", "voice_adult_m", 1, 1, 1⟩

/-- A candidate whose normalized text is the given string. -/
def candOfText (s : String) : Candidate :=
  ⟨[0, 0, 1, 1], s.toList, demoAnalysis⟩

set_option maxRecDepth 40000 in
/-- C4 counterexample: the pairwise condition is not an equivalence-class
criterion.  With candidates `"abcdefghij"`, `"abcdefghijklm"`,
`"abcdefghijklmnop"`, the second and third satisfy the merge condition
(substring with length ratio `13/16 > 0.7`), yet the scan keeps both: the
first candidate consumes the second into its class (ratio `10/13 > 0.7`)
before the second can be compared with the third (`10/16 ≤ 0.7` and
similarity `20/26 < 0.88` keep the third out of the first class).  So a pair
satisfying the criterion ends up in two different classes, refuting the
"if and only if" formulation. -/
theorem mergeCandidates_notTransitive_counterexample :
    candMatch (compKey (candOfText "abcdefghijklm"))
        (compKey (candOfText "abcdefghijklmnop")) = true ∧
    candMatch (compKey (candOfText "abcdefghij"))
        (compKey (candOfText "abcdefghijklmnop")) = false ∧
    mergeCandidates [candOfText "abcdefghij", candOfText "abcdefghijklm",
        candOfText "abcdefghijklmnop"] =
      [candOfText "abcdefghijklm", candOfText "abcdefghijklmnop"] := by
  refine ⟨by decide, by decide, by decide⟩

theorem pickLongest_cons (c g : Candidate) (gs : List Candidate) :
    pickLongest c (g :: gs) =
      pickLongest (if (compKey c).length < (compKey g).length then g else c) gs := rfl

/-- Python `max(group, key=…)` picks a member of the group. -/
theorem pickLongest_mem :
    ∀ (group : List Candidate) (c : Candidate), pickLongest c group ∈ c :: group := by
  intro group
  induction group with
  | nil =>
    intro c
    simp [pickLongest]
  | cons g gs ih =>
    intro c
    rw [pickLongest_cons]
    rcases List.mem_cons.1
        (ih (if (compKey c).length < (compKey g).length then g else c)) with h | h
    · rw [h]
      split
      · exact List.mem_cons_of_mem _ (List.mem_cons_self _ _)
      · exact List.mem_cons_self _ _
    · exact List.mem_cons_of_mem _ (List.mem_cons_of_mem _ h)

/-- Python `max(group, key=…)` picks a member of maximal key length. -/
theorem pickLongest_maximal :
    ∀ (group : List Candidate) (c d : Candidate), d ∈ c :: group →
      (compKey d).length ≤ (compKey (pickLongest c group)).length := by
  intro group
  induction group with
  | nil =>
    intro c d hd
    rw [List.mem_singleton] at hd
    subst hd
    simp [pickLongest]
  | cons g gs ih =>
    intro c d hd
    rw [pickLongest_cons]
    have hcle : (compKey c).length ≤
        (compKey (if (compKey c).length < (compKey g).length then g else c)).length := by
      split <;> omega
    have hgle : (compKey g).length ≤
        (compKey (if (compKey c).length < (compKey g).length then g else c)).length := by
      split <;> omega
    rcases List.mem_cons.1 hd with h | h
    · subst h
      exact le_trans hcle (ih _ _ (List.mem_cons_self _ _))
    · rcases List.mem_cons.1 h with h' | h'
      · subst h'
        exact le_trans hgle (ih _ _ (List.mem_cons_self _ _))
      · exact ih _ _ (List.mem_cons_of_mem _ h')

/-- The dedup scan is insensitive to surplus fuel. -/
theorem mergeCandidatesGo_congr :
    ∀ (f1 : ℕ) (f2 : ℕ) (l : List Candidate), l.length ≤ f1 → l.length ≤ f2 →
      mergeCandidatesGo f1 l = mergeCandidatesGo f2 l := by
  intro f1
  induction f1 with
  | zero =>
    intro f2 l hl _
    rw [Nat.le_zero] at hl
    rw [List.length_eq_zero] at hl
    subst hl
    cases f2 <;> rfl
  | succ f1 ih =>
    intro f2 l hl1 hl2
    match l with
    | [] => cases f2 <;> rfl
    | c :: rest =>
      match f2, hl2 with
      | f2 + 1, hl2 =>
        have hr1 : rest.length ≤ f1 := by simpa using hl1
        have hr2 : rest.length ≤ f2 := by simpa using hl2
        have hfl : (rest.filter fun d => !candMatch (compKey c) (compKey d)).length ≤
            rest.length := List.length_filter_le _ _
        simp only [mergeCandidatesGo]
        exact congrArg _ (ih _ _ (le_trans hfl hr1) (le_trans hfl hr2))

/-- The dedup scan unfolds one class at a time. -/
theorem mergeCandidates_cons (c : Candidate) (rest : List Candidate) :
    mergeCandidates (c :: rest) =
      pickLongest c (rest.filter fun d => candMatch (compKey c) (compKey d)) ::
        mergeCandidates (rest.filter fun d => !candMatch (compKey c) (compKey d)) := by
  have hf : (rest.filter fun d => !candMatch (compKey c) (compKey d)).length ≤ rest.length :=
    List.length_filter_le _ _
  simp only [mergeCandidates, List.length_cons, mergeCandidatesGo]
  exact congrArg _ (mergeCandidatesGo_congr _ _ _ hf le_rfl)

/-- C4 amended: classes are formed greedily, not by closing the pairwise
condition transitively.  The scan takes the first unconsumed candidate `c`
as class representative; its class consists of `c` together with exactly
those still-unconsumed later candidates whose comparison key matches `c`'s
key under the pairwise condition (substring with length ratio above `0.7`,
or similarity at least `0.88`); the member of the class with the longest
comparison key (the first such on ties) is kept, all other members are
discarded, and the scan recurses on the candidates that did not match. -/
theorem mergeCandidates_greedy_spec (c : Candidate) (rest : List Candidate) :
    pickLongest c (rest.filter fun d => candMatch (compKey c) (compKey d)) ∈
      c :: rest.filter (fun d => candMatch (compKey c) (compKey d)) ∧
    (∀ d ∈ c :: rest.filter (fun d => candMatch (compKey c) (compKey d)),
      (compKey d).length ≤
        (compKey (pickLongest c
          (rest.filter fun d => candMatch (compKey c) (compKey d)))).length) ∧
    mergeCandidates (c :: rest) =
      pickLongest c (rest.filter fun d => candMatch (compKey c) (compKey d)) ::
        mergeCandidates (rest.filter fun d => !candMatch (compKey c) (compKey d)) :=
  ⟨pickLongest_mem _ _, pickLongest_maximal _ _, mergeCandidates_cons _ _⟩

set_option maxRecDepth 40000 in
/-- C5 counterexample: the merge is not idempotent.  On
`["0123456789", "0123456789abc", "0123456789abcdef"]` the first pass keeps
the second and third candidates (the first consumes the second, the third
matches neither), and a second pass merges those two — so applying the merge
to its own output changes it. -/
theorem mergeCandidates_notIdempotent_counterexample :
    mergeCandidates (mergeCandidates [candOfText "0123456789",
        candOfText "0123456789abc", candOfText "0123456789abcdef"]) ≠
      mergeCandidates [candOfText "0123456789", candOfText "0123456789abc",
        candOfText "0123456789abcdef"] := by
  decide

/-- C5 amended: the merge is a fixed point exactly on candidate lists with
no matching pair; in particular, applying it to a list whose members are
pairwise non-matching under the merge condition returns that list
unchanged, but its own output can still contain matching representatives
(as the counterexample shows), so idempotence fails in general. -/
theorem mergeCandidates_pairwiseDistinct_fixed (l : List Candidate)
    (h : l.Pairwise fun c d => candMatch (compKey c) (compKey d) = false) :
    mergeCandidates l = l := by
  induction l with
  | nil => rfl
  | cons c rest ih =>
    rw [List.pairwise_cons] at h
    have h1 : rest.filter (fun d => candMatch (compKey c) (compKey d)) = [] :=
      List.filter_eq_nil_iff.2 fun d hd => by simp [h.1 d hd]
    have h2 : rest.filter (fun d => !candMatch (compKey c) (compKey d)) = rest :=
      List.filter_eq_self.2 fun d hd => by simp [h.1 d hd]
    rw [mergeCandidates_cons, h1, h2, ih h.2]
    rfl

/-- C5 amended, witnessed on a pairwise non-matching list. -/
theorem mergeCandidates_pairwiseDistinct_fixed_witness :
    mergeCandidates [candOfText "aaaa", candOfText "zzzz"] =
      [candOfText "aaaa", candOfText "zzzz"] :=
  mergeCandidates_pairwiseDistinct_fixed _ (by decide)

/-! ## Claim C7 — character-voice continuity -/

/-- `assignOne` never removes or overwrites an existing memo binding. -/
theorem assignOne_memo_preserves (mode gender : String)
    (memo : List (List Char × VoiceChoice)) (a : CharacterAnalysis)
    (k : List Char) (v : VoiceChoice) (h : memoLookup memo k = some v) :
    memoLookup (assignOne mode gender memo a).2 k = some v := by
  unfold assignOne
  by_cases hm : mode = "narrate"
  · simp [hm, h]
  · simp only [if_neg hm]
    by_cases hr : reuseAllowed mode a = true
    · rcases hl : memoLookup memo (characterKey a) with _ | w
      · by_cases hv : a.voice_suggestion != ""
        · have hk : ¬ characterKey a = k := by
            intro he
            rw [he, h] at hl
            exact Option.noConfusion hl
          simp [hr, hl, hv, memoLookup, hk, h]
        · simp [hr, hl, hv, h]
      · simp [hr, hl, h]
    · simp only [Bool.not_eq_true] at hr
      simp [hr, h]

/-- With a memo hit and reuse allowed, the cached choice is used verbatim
and the memo is unchanged. -/
theorem assignOne_hit (mode gender : String)
    (memo : List (List Char × VoiceChoice)) (a : CharacterAnalysis)
    (v : VoiceChoice) (hm : ¬ mode = "narrate")
    (hr : reuseAllowed mode a = true)
    (h : memoLookup memo (characterKey a) = some v) :
    assignOne mode gender memo a = (v, memo) := by
  unfold assignOne
  simp [hm, hr, h]

/-- With a memo miss, reuse allowed and a non-empty voice suggestion, the
analysis's own parameters are used and cached under the character key. -/
theorem assignOne_miss (mode gender : String)
    (memo : List (List Char × VoiceChoice)) (a : CharacterAnalysis)
    (hm : ¬ mode = "narrate") (hr : reuseAllowed mode a = true)
    (hv : a.voice_suggestion ≠ "")
    (h : memoLookup memo (characterKey a) = none) :
    assignOne mode gender memo a =
      (⟨a.voice_suggestion, a.stability, a.similarity_boost, a.style⟩,
        (characterKey a,
          (⟨a.voice_suggestion, a.stability, a.similarity_boost, a.style⟩ : VoiceChoice)) ::
          memo) := by
  unfold assignOne
  have hv' : (a.voice_suggestion != "") = true := by simpa using hv
  simp [hm, hr, h, hv']

/-- The assignment list has one entry per analysed bubble. -/
theorem assignVoicesGo_length (mode gender : String) :
    ∀ (l : List CharacterAnalysis) (memo : List (List Char × VoiceChoice)),
      (assignVoicesGo mode gender l memo).length = l.length := by
  intro l
  induction l with
  | nil => intro memo; rfl
  | cons a rest ih => intro memo; simp [assignVoicesGo, ih]

/-- Once the memo binds a bubble's character key, every later bubble with
that key and reuse allowed receives the bound choice. -/
theorem assignVoicesGo_lookup (mode gender : String) (hm : ¬ mode = "narrate") :
    ∀ (l : List CharacterAnalysis) (memo : List (List Char × VoiceChoice))
      (k : ℕ) (a : CharacterAnalysis) (v : VoiceChoice),
      l[k]? = some a →
      memoLookup memo (characterKey a) = some v →
      reuseAllowed mode a = true →
      (assignVoicesGo mode gender l memo)[k]? = some v := by
  intro l
  induction l with
  | nil =>
    intro memo k a v ha _ _
    simp at ha
  | cons b rest ih =>
    intro memo k a v ha hmem hr
    match k with
    | 0 =>
      rw [List.getElem?_cons_zero, Option.some_inj] at ha
      subst ha
      rw [show assignVoicesGo mode gender (b :: rest) memo =
          (assignOne mode gender memo b).1 ::
            assignVoicesGo mode gender rest (assignOne mode gender memo b).2 from rfl]
      rw [assignOne_hit mode gender memo b v hm hr hmem]
      simp
    | k + 1 =>
      rw [List.getElem?_cons_succ] at ha
      have hmem' := assignOne_memo_preserves mode gender memo b _ _ hmem
      simp only [assignVoicesGo, List.getElem?_cons_succ]
      exact ih _ k a v ha hmem' hr

/-- The continuity invariant, generalised over the starting memo. -/
theorem assignVoicesGo_continuity (mode gender : String) (hm : ¬ mode = "narrate") :
    ∀ (l : List CharacterAnalysis) (memo : List (List Char × VoiceChoice))
      (k1 k2 : ℕ) (a1 a2 : CharacterAnalysis),
      (∀ a ∈ l, a.voice_suggestion ≠ "") →
      k1 < k2 →
      l[k1]? = some a1 → l[k2]? = some a2 →
      characterKey a1 = characterKey a2 →
      reuseAllowed mode a1 = true → reuseAllowed mode a2 = true →
      (assignVoicesGo mode gender l memo)[k1]? =
        (assignVoicesGo mode gender l memo)[k2]? := by
  intro l
  induction l with
  | nil =>
    intro memo k1 k2 a1 a2 _ _ h1 _ _ _ _
    simp at h1
  | cons b rest ih =>
    intro memo k1 k2 a1 a2 hv hlt h1 h2 hkey hr1 hr2
    match k1, k2 with
    | 0, k2 + 1 =>
      rw [List.getElem?_cons_zero, Option.some_inj] at h1
      subst h1
      rw [List.getElem?_cons_succ] at h2
      rcases hl : memoLookup memo (characterKey b) with _ | w
      · have hvb : b.voice_suggestion ≠ "" := hv b (List.mem_cons_self _ _)
        rw [show assignVoicesGo mode gender (b :: rest) memo =
            (assignOne mode gender memo b).1 ::
              assignVoicesGo mode gender rest (assignOne mode gender memo b).2 from rfl]
        rw [assignOne_miss mode gender memo b hm hr1 hvb hl]
        rw [List.getElem?_cons_zero, List.getElem?_cons_succ]
        have hbind : memoLookup
            ((characterKey b,
                (⟨b.voice_suggestion, b.stability, b.similarity_boost, b.style⟩ :
                  VoiceChoice)) :: memo) (characterKey a2) =
            some ⟨b.voice_suggestion, b.stability, b.similarity_boost, b.style⟩ := by
          rw [← hkey]
          simp [memoLookup]
        rw [assignVoicesGo_lookup mode gender hm rest _ k2 a2 _ h2 hbind hr2]
      · rw [show assignVoicesGo mode gender (b :: rest) memo =
            (assignOne mode gender memo b).1 ::
              assignVoicesGo mode gender rest (assignOne mode gender memo b).2 from rfl]
        rw [assignOne_hit mode gender memo b w hm hr1 hl]
        rw [List.getElem?_cons_zero, List.getElem?_cons_succ]
        have hbind : memoLookup memo (characterKey a2) = some w := by
          rw [← hkey]; exact hl
        rw [assignVoicesGo_lookup mode gender hm rest _ k2 a2 _ h2 hbind hr2]
    | k1 + 1, k2 + 1 =>
      rw [List.getElem?_cons_succ] at h1 h2
      simp only [assignVoicesGo, List.getElem?_cons_succ]
      exact ih _ k1 k2 a1 a2 (fun a ha => hv a (List.mem_cons_of_mem _ ha))
        (Nat.lt_of_succ_lt_succ hlt) h1 h2 hkey hr1 hr2

/-- C7: (1) Outside narrate mode, two accepted bubbles whose normalized
`character_type` is the same key with reuse allowed (non-empty key, not
`unknown`/`sfx_autodetect`, bubble kind not `sfx`/`narration`) receive the
identical `(voice_id, stability, similarity_boost, style)` tuple — the first
assignment is cached in the per-job memo and reused verbatim (voice
suggestions are non-empty, as every `CharacterAnalysis` built by the vision
service carries a voice from its fallback tables).  (2) In narrate mode
every bubble uses the single narrator voice selected by `narrator_gender`,
with the fixed narrator settings. -/
theorem characterVoiceContinuity :
    (∀ (mode gender : String) (l : List CharacterAnalysis)
        (k1 k2 : ℕ) (a1 a2 : CharacterAnalysis),
      ¬ mode = "narrate" →
      (∀ a ∈ l, a.voice_suggestion ≠ "") →
      k1 < k2 →
      l[k1]? = some a1 → l[k2]? = some a2 →
      characterKey a1 = characterKey a2 →
      reuseAllowed mode a1 = true → reuseAllowed mode a2 = true →
      (assignVoices mode gender l)[k1]? = (assignVoices mode gender l)[k2]?) ∧
    (∀ (gender : String) (l : List CharacterAnalysis) (v : VoiceChoice),
      v ∈ assignVoices "narrate" gender l →
      v = ⟨if gender = "male" then "voice_narrator_m" else "voice_narrator_f",
        7/10, 17/20, 1/4⟩) := by
  constructor
  · intro mode gender l k1 k2 a1 a2 hm hv hlt h1 h2 hkey hr1 hr2
    exact assignVoicesGo_continuity mode gender hm l [] k1 k2 a1 a2 hv hlt h1 h2 hkey hr1 hr2
  · intro gender l
    suffices h : ∀ (memo : List (List Char × VoiceChoice)) (v : VoiceChoice),
        v ∈ assignVoicesGo "narrate" gender l memo →
        v = ⟨if gender = "male" then "voice_narrator_m" else "voice_narrator_f",
          7/10, 17/20, 1/4⟩ by
      intro v hvmem
      exact h [] v hvmem
    induction l with
    | nil =>
      intro memo v hvmem
      simp [assignVoicesGo] at hvmem
    | cons a rest ih =>
      intro memo v hvmem
      rw [show assignVoicesGo "narrate" gender (a :: rest) memo =
          (assignOne "narrate" gender memo a).1 ::
            assignVoicesGo "narrate" gender rest (assignOne "narrate" gender memo a).2
        from rfl] at hvmem
      rcases List.mem_cons.1 hvmem with h | h
      · rw [h]
        rfl
      · exact ih _ v h

/-- C7, witnessed: two bubbles with key `adult_male` but different analysis
parameters get the first bubble's tuple in `bring_to_life` mode, and a
narrate-mode bubble gets the female narrator voice. -/
theorem characterVoiceContinuity_witness :
    (assignVoices "bring_to_life" "female"
        [⟨"adult_male", "angry", "dramatic", "voice_adult_m", 1, 1, 1⟩,
          ⟨"adult_male", "calm", "serious", "voice_young_m", 0, 0, 0⟩])[0]? =
      (assignVoices "bring_to_life" "female"
        [⟨"adult_male", "angry", "dramatic", "voice_adult_m", 1, 1, 1⟩,
          ⟨"adult_male", "calm", "serious", "voice_young_m", 0, 0, 0⟩])[1]? ∧
    (⟨"voice_narrator_f", 7/10, 17/20, 1/4⟩ : VoiceChoice) =
      ⟨if ("female" : String) = "male" then "voice_narrator_m" else "voice_narrator_f",
        7/10, 17/20, 1/4⟩ := by
  constructor
  · refine characterVoiceContinuity.1 "bring_to_life" "female" _ 0 1
      ⟨"adult_male", "angry", "dramatic", "voice_adult_m", 1, 1, 1⟩
      ⟨"adult_male", "calm", "serious", "voice_young_m", 0, 0, 0⟩
      (by decide) ?_ (by decide) rfl rfl rfl (by decide) (by decide)
    intro a ha
    simp only [List.mem_cons, List.mem_singleton] at ha
    rcases ha with h | h | h
    · rw [h]; decide
    · rw [h]; decide
    · exact absurd h (List.not_mem_nil a)
  · refine characterVoiceContinuity.2 "female"
      [⟨"narrator", "neutral", "normal", "voice_narrator_f", 1, 1, 1⟩]
      ⟨"voice_narrator_f", 7/10, 17/20, 1/4⟩ ?_
    rw [show assignVoices "narrate" "female"
        [⟨"narrator", "neutral", "normal", "voice_narrator_f", 1, 1, 1⟩] =
        [⟨"voice_narrator_f", 7/10, 17/20, 1/4⟩] from rfl]
    exact List.mem_singleton_self _

/-! ## Claim C6 — page segmentation -/

theorem getLast?_cons_of_ne_nil {α : Type} (a : α) (l : List α) (h : l ≠ []) :
    (a :: l).getLast? = l.getLast? := by
  cases l with
  | nil => exact absurd rfl h
  | cons b t => exact List.getLast?_cons_cons

/-- While the loop is inside the page, the next emitted range starts at the
current position. -/
theorem segmentLoop_head (height maxH o fuel start : ℕ) (h : start < height) :
    ∃ t, segmentLoop height maxH o (fuel + 1) start =
      (start, min height (start + maxH)) :: t := by
  simp only [segmentLoop, if_pos h]
  split
  · exact ⟨[], rfl⟩
  · exact ⟨_, rfl⟩

/-- Loop invariant: given positive advance (`o < maxH`) and enough fuel, the
emitted ranges end exactly at `height`, and each consecutive pair satisfies
`next.start + o = prev.start + maxH` with `prev.end = prev.start + maxH`. -/
theorem segmentLoop_spec (height maxH o : ℕ) (ho : o < maxH) :
    ∀ fuel start, start < height → height ≤ start + fuel →
      (∃ s, (segmentLoop height maxH o fuel start).getLast? = some (s, height)) ∧
      List.Chain' (fun r1 r2 => r2.1 + o = r1.1 + maxH ∧ r1.2 = r1.1 + maxH)
        (segmentLoop height maxH o fuel start) := by
  intro fuel
  induction fuel with
  | zero =>
    intro start h1 h2
    omega
  | succ fuel ih =>
    intro start h1 h2
    simp only [segmentLoop, if_pos h1]
    by_cases he : height ≤ min height (start + maxH)
    · rw [if_pos he]
      have hmin : min height (start + maxH) = height := by omega
      rw [hmin]
      exact ⟨⟨start, rfl⟩, List.chain'_singleton _⟩
    · rw [if_neg he]
      have hlt : start + maxH < height := by omega
      have hmin : min height (start + maxH) = start + maxH := by omega
      rw [hmin]
      have hs' : start + maxH - o < height := by omega
      have hf' : height ≤ (start + maxH - o) + fuel := by omega
      obtain ⟨⟨s, hlast⟩, hchain⟩ := ih (start + maxH - o) hs' hf'
      have hne : segmentLoop height maxH o fuel (start + maxH - o) ≠ [] := by
        intro hnil
        rw [hnil] at hlast
        exact Option.noConfusion hlast
      refine ⟨⟨s, ?_⟩, ?_⟩
      · rw [getLast?_cons_of_ne_nil _ _ hne]
        exact hlast
      · rw [List.chain'_cons']
        refine ⟨?_, hchain⟩
        intro y hy
        match fuel, hf' with
        | fuel + 1, hf' =>
          obtain ⟨t, ht⟩ := segmentLoop_head height maxH o fuel (start + maxH - o) hs'
          rw [ht] at hy
          simp only [List.head?_cons, Option.mem_def, Option.some_inj] at hy
          subst hy
          constructor
          · omega
          · rfl

/-- C6: with the default `max_height = 1500` (the only way the source calls
the segmenter) and any requested `overlap`, a positive page height at most
1500 yields the single full-height range `(0, height)`; a taller page yields
ranges whose consecutive starts advance by exactly
`max(400, 1500 − min(overlap, 750))` (the effective overlap is capped at
`1500 / 2 = 750`, so the advance `1500 − overlap` coincides with the `step`
formula of the spec), whose final range ends exactly at `height`, and — for
`overlap = 1000` — consecutive ranges overlap by at least 500 pixels. -/
theorem segmentation_spec (height overlap : ℕ) (hpos : 0 < height) :
    (height ≤ 1500 → segmentVerticalRanges height 1500 overlap = [(0, height)]) ∧
    (1500 < height →
      (∃ s, (segmentVerticalRanges height 1500 overlap).getLast? = some (s, height)) ∧
      List.Chain' (fun r1 r2 => r2.1 = r1.1 + max 400 (1500 - min overlap 750))
        (segmentVerticalRanges height 1500 overlap) ∧
      (overlap = 1000 →
        List.Chain' (fun r1 r2 => 500 ≤ r1.2 - r2.1)
          (segmentVerticalRanges height 1500 overlap))) := by
  constructor
  · intro h
    simp [segmentVerticalRanges, h]
  · intro h
    have hnle : ¬ height ≤ 1500 := by omega
    have ho : min overlap (1500 / 2) < 1500 := by
      have := Nat.min_le_right overlap (1500 / 2)
      omega
    have hf : height ≤ 0 + (height + 1) := by omega
    obtain ⟨hlast, hchain⟩ :=
      segmentLoop_spec height 1500 (min overlap (1500 / 2)) ho (height + 1) 0 hpos hf
    simp only [segmentVerticalRanges, if_neg hnle]
    refine ⟨hlast, ?_, ?_⟩
    · refine hchain.imp ?_
      intro r1 r2 hr
      have hcap : min overlap (1500 / 2) ≤ 750 := by
        have := Nat.min_le_right overlap (1500 / 2)
        omega
      omega
    · intro hov
      subst hov
      refine hchain.imp ?_
      intro r1 r2 hr
      omega

/-- C6, witnessed at a short page and at a 4000-pixel page with the default
overlap. -/
theorem segmentation_spec_witness :
    segmentVerticalRanges 1200 1500 1000 = [(0, 1200)] ∧
    (∃ s, (segmentVerticalRanges 4000 1500 1000).getLast? = some (s, 4000)) :=
  ⟨(segmentation_spec 1200 1000 (by decide)).1 (by decide),
    ((segmentation_spec 4000 1000 (by decide)).2 (by decide)).1⟩

/-! ## Claim C2 — job state after an unhandled page exception -/

/-- A pipeline environment whose every page raises. -/
def c2FailEnv : PipelineEnv :=
  ⟨fun _ => Except.error "boom"⟩

/-- C2 counterexample: enqueue a one-page chapter job, then let page 0 raise.
The exception propagates out of `process_chapter` (there is no handler), and
the stored job still reads `status = "processing"`, `progress = 5`,
`error = none`: the status is not set to `failed` and no error message is
captured, refuting that part of the claim.  (The placeholder chapter is also
still `processing`, not `ready`.) -/
theorem jobFailure_counterexample :
    (processChapter c2FailEnv (enqueueChapterJob ⟨[], []⟩ "ch1" "job1").1
        "ch1" 1 (some "job1")).2.2 = Except.error "boom" ∧
    alistLookup (processChapter c2FailEnv (enqueueChapterJob ⟨[], []⟩ "ch1" "job1").1
        "ch1" 1 (some "job1")).1.jobs "job1" =
      some ⟨"processing", 5, some "ch1", none⟩ ∧
    alistLookup (processChapter c2FailEnv (enqueueChapterJob ⟨[], []⟩ "ch1" "job1").1
        "ch1" 1 (some "job1")).1.chapters "ch1" =
      some ⟨"processing", 5, []⟩ :=
  ⟨rfl, rfl, rfl⟩

/-- If page `i + k` raises while the `k` earlier pages succeed, the loop
stops with that error: the chapters hash is untouched and the job record
keeps its status and error fields, with progress frozen at the last
successful page update. -/
theorem processPages_fail (env : PipelineEnv) (n : ℕ) (j : String) :
    ∀ (k i rem : ℕ) (acc : List PagePayload) (s : Store) (trace : List JobRecord)
      (r : JobRecord) (e : String),
      alistLookup s.jobs j = some r →
      k < rem →
      env.pageResults (i + k) = Except.error e →
      (∀ t, t < k → ∃ p, env.pageResults (i + t) = Except.ok p) →
      (processPages env n (some j) i rem acc s trace).2.2 = Except.error e ∧
      (processPages env n (some j) i rem acc s trace).1.chapters = s.chapters ∧
      ∃ r', alistLookup (processPages env n (some j) i rem acc s trace).1.jobs j =
          some r' ∧
        r'.status = r.status ∧ r'.error = r.error ∧
        r'.progress = if k = 0 then r.progress else pageProgress (i + k) n := by
  intro k
  induction k with
  | zero =>
    intro i rem acc s trace r e hj hk hfail _
    match rem, hk with
    | rem + 1, _ =>
      rw [Nat.add_zero] at hfail
      simp only [processPages, hfail]
      exact ⟨by simp, by simp, r, hj, rfl, rfl, by simp⟩
  | succ k ih =>
    intro i rem acc s trace r e hj hk hfail hok
    match rem, hk with
    | rem + 1, hk =>
      obtain ⟨p, hp⟩ := hok 0 (Nat.succ_pos k)
      rw [Nat.add_zero] at hp
      simp only [processPages, hp]
      have hj1 : alistLookup
          (updateJob s j ⟨none, some (pageProgress (i + 1) n), none, none⟩).1.jobs j =
          some ⟨r.status, pageProgress (i + 1) n, r.chapter_id, r.error⟩ := by
        rw [updateJob_jobs s j _ r hj]
        rfl
      have hfail' : env.pageResults ((i + 1) + k) = Except.error e := by
        rwa [show (i + 1) + k = i + (k + 1) from by omega]
      have hok' : ∀ t, t < k → ∃ p, env.pageResults ((i + 1) + t) = Except.ok p := by
        intro t ht
        obtain ⟨q, hq⟩ := hok (t + 1) (Nat.succ_lt_succ ht)
        exact ⟨q, by rwa [show i + (t + 1) = (i + 1) + t from by omega] at hq⟩
      obtain ⟨h1, h2, r', hr', hst, herr, hpr⟩ :=
        ih (i + 1) rem (acc ++ [p]) _ _ _ e hj1 (Nat.lt_of_succ_lt_succ hk) hfail' hok'
      refine ⟨h1, by rw [h2]; rfl, r', hr', hst, herr, ?_⟩
      rw [hpr]
      cases k with
      | zero => simp
      | succ m =>
        rw [if_neg (Nat.succ_ne_zero m), if_neg (Nat.succ_ne_zero (m + 1))]
        rw [show (i + 1) + (m + 1) = i + (m + 1 + 1) from by omega]

/-- C2 amended: an unhandled exception during page processing propagates out
of `process_chapter` with no handler in between: the job's stored status and
error fields are left exactly as they were (in the real flow `"processing"`
and `none` — the status is never set to `failed` and no message is
captured), progress stays at the last successfully recorded value, and the
chapters hash is untouched, so no partial chapter is persisted with status
`ready`. -/
theorem jobFailure_frozen (env : PipelineEnv) (s : Store) (cid : String)
    (n : ℕ) (j : String) (r : JobRecord) (k : ℕ) (e : String)
    (hj : alistLookup s.jobs j = some r)
    (hk : k < n)
    (hfail : env.pageResults k = Except.error e)
    (hok : ∀ t, t < k → ∃ p, env.pageResults t = Except.ok p) :
    (processChapter env s cid n (some j)).2.2 = Except.error e ∧
    (processChapter env s cid n (some j)).1.chapters = s.chapters ∧
    ∃ r', alistLookup (processChapter env s cid n (some j)).1.jobs j = some r' ∧
      r'.status = r.status ∧ r'.error = r.error ∧
      r'.progress = if k = 0 then r.progress else pageProgress k n := by
  have hn : ¬ n = 0 := by omega
  have h := processPages_fail env n j k 0 n [] s [] r e hj hk
    (by simpa using hfail) (by simpa using hok)
  rw [show (0 : ℕ) + k = k from by omega] at h
  simp only [processChapter, if_neg hn]
  rcases hres : processPages env n (some j) 0 n [] s [] with ⟨s1, trace, res⟩
  rw [hres] at h
  obtain ⟨h1, h2, r', hr', hst, herr, hpr⟩ := h
  simp only at h1
  subst h1
  exact ⟨rfl, h2, r', hr', hst, herr, hpr⟩

/-- C2 amended, witnessed on a two-page job failing at page 1. -/
theorem jobFailure_frozen_witness :
    (processChapter ⟨fun i => if i = 0 then Except.ok ⟨0, [], []⟩
          else Except.error "crash"⟩
        (enqueueChapterJob ⟨[], []⟩ "ch" "j").1 "ch" 2 (some "j")).2.2 =
      Except.error "crash" ∧
    (processChapter ⟨fun i => if i = 0 then Except.ok ⟨0, [], []⟩
          else Except.error "crash"⟩
        (enqueueChapterJob ⟨[], []⟩ "ch" "j").1 "ch" 2 (some "j")).1.chapters =
      (enqueueChapterJob ⟨[], []⟩ "ch" "j").1.chapters ∧
    ∃ r', alistLookup (processChapter ⟨fun i => if i = 0 then Except.ok ⟨0, [], []⟩
          else Except.error "crash"⟩
        (enqueueChapterJob ⟨[], []⟩ "ch" "j").1 "ch" 2 (some "j")).1.jobs "j" =
        some r' ∧
      r'.status = (⟨"processing", 5, some "ch", none⟩ : JobRecord).status ∧
      r'.error = (⟨"processing", 5, some "ch", none⟩ : JobRecord).error ∧
      r'.progress = if (1 : ℕ) = 0
        then (⟨"processing", 5, some "ch", none⟩ : JobRecord).progress
        else pageProgress 1 2 :=
  jobFailure_frozen _ _ "ch" 2 "j" ⟨"processing", 5, some "ch", none⟩ 1 "crash"
    (enqueue_job_lookup ⟨[], []⟩ "ch" "j") (by omega) rfl
    (fun t ht => by
      match t, ht with
      | 0, _ => exact ⟨⟨0, [], []⟩, rfl⟩
      | t + 1, ht => exact absurd ht (by omega))

/-! ## Claim C9 — progress values -/

/-- A pipeline environment whose every page succeeds with an empty page. -/
def c9Env : PipelineEnv :=
  ⟨fun _ => Except.ok ⟨0, [], []⟩⟩

/-- C9 counterexample: running a two-page job records the job state
`status = "processing", progress = 5` (written by `enqueue_chapter_job`
before any page completes), so not every progress value recorded while the
status is `processing` lies in `[10, 90]`. -/
theorem progress_five_counterexample :
    (⟨"processing", 5, some "ch1", none⟩ : JobRecord) ∈
      (runChapterJob c9Env ⟨[], []⟩ "ch1" "job1" 2).2.1 ∧
    ¬ 10 ≤ (5 : ℕ) := by
  constructor
  · rw [show (runChapterJob c9Env ⟨[], []⟩ "ch1" "job1" 2).2.1 =
        [⟨"queued", 0, none, none⟩, ⟨"processing", 5, some "ch1", none⟩,
          ⟨"processing", 50, some "ch1", none⟩, ⟨"processing", 90, some "ch1", none⟩,
          ⟨"ready", 100, some "ch1", none⟩] from rfl]
    simp
  · omega

/-- The page-completion progress formula stays within `[10, 90]`. -/
theorem pageProgress_bounds (k n : ℕ) (hn : 0 < n) (hk : k ≤ n) :
    10 ≤ pageProgress k n ∧ pageProgress k n ≤ 90 := by
  unfold pageProgress
  constructor
  · exact Nat.le_add_right 10 _
  · have h1 : 80 * k ≤ 80 * n := by omega
    have h2 : 80 * k / n ≤ 80 * n / n := Nat.div_le_div_right h1
    have h3 : 80 * n / n = 80 := Nat.mul_div_cancel 80 hn
    omega

/-- The records `enqueue_chapter_job` writes: the fresh `queued` job at
progress 0, then the `processing` update at progress 5. -/
theorem enqueue_trace (s : Store) (cid jid : String) :
    (enqueueChapterJob s cid jid).2 =
      [⟨"queued", 0, none, none⟩, ⟨"processing", 5, some cid, none⟩] := by
  simp only [enqueueChapterJob, createJob, updateJob, alistLookup_set,
    Option.getD_some]
  rfl

/-- On an all-success run, the page loop writes exactly one progress record
per page, with the status, chapter id and error fields it found in the job
record, and leaves the chapters hash alone. -/
theorem processPages_ok (env : PipelineEnv) (n : ℕ) (j : String) :
    ∀ (rem i : ℕ) (acc : List PagePayload) (s : Store) (trace : List JobRecord)
      (r : JobRecord),
      alistLookup s.jobs j = some r →
      (∀ t, t < rem → ∃ p, env.pageResults (i + t) = Except.ok p) →
      ∃ sF pages,
        processPages env n (some j) i rem acc s trace =
          (sF, trace ++ (List.range rem).map
            (fun t => ⟨r.status, pageProgress (i + t + 1) n, r.chapter_id, r.error⟩),
            Except.ok pages) ∧
        sF.chapters = s.chapters ∧
        alistLookup sF.jobs j =
          some ⟨r.status, if rem = 0 then r.progress else pageProgress (i + rem) n,
            r.chapter_id, r.error⟩ := by
  intro rem
  induction rem with
  | zero =>
    intro i acc s trace r hj _
    refine ⟨s, acc, ?_, rfl, ?_⟩
    · simp [processPages]
    · simpa using hj
  | succ rem ih =>
    intro i acc s trace r hj hok
    obtain ⟨p, hp⟩ := hok 0 (Nat.succ_pos rem)
    rw [Nat.add_zero] at hp
    simp only [processPages, hp]
    have hj1 : alistLookup
        (updateJob s j ⟨none, some (pageProgress (i + 1) n), none, none⟩).1.jobs j =
        some ⟨r.status, pageProgress (i + 1) n, r.chapter_id, r.error⟩ := by
      rw [updateJob_jobs s j _ r hj]
      rfl
    have hok' : ∀ t, t < rem → ∃ q, env.pageResults ((i + 1) + t) = Except.ok q := by
      intro t ht
      obtain ⟨q, hq⟩ := hok (t + 1) (Nat.succ_lt_succ ht)
      exact ⟨q, by rwa [show i + (t + 1) = (i + 1) + t from by omega] at hq⟩
    obtain ⟨sF, pages, heq, hch, hjF⟩ := ih (i + 1) (acc ++ [p]) _ _ _ hj1 hok'
    refine ⟨sF, pages, ?_, by rw [hch]; rfl, ?_⟩
    · rw [heq]
      have hu2 : (updateJob s j ⟨none, some (pageProgress (i + 1) n), none, none⟩).2 =
          ⟨r.status, pageProgress (i + 1) n, r.chapter_id, r.error⟩ := by
        unfold updateJob
        rw [hj]
        rfl
      refine congrArg (fun l => (sF, l, Except.ok pages)) ?_
      rw [List.append_assoc]
      refine congrArg (fun l => trace ++ l) ?_
      rw [hu2, List.singleton_append, List.range_succ_eq_map, List.map_cons, List.map_map]
      congr 1
      refine List.map_congr_left ?_
      intro t _
      simp only [Function.comp_apply]
      rw [show (i + 1) + t + 1 = i + (t + 1) + 1 from by omega]
    · rw [hjF]
      cases rem with
      | zero => simp
      | succ m =>
        rw [if_neg (Nat.succ_ne_zero m), if_neg (Nat.succ_ne_zero (m + 1))]
        rw [show (i + 1) + (m + 1) = i + (m + 1 + 1) from by omega]

/-- C9 amended: the job's progress is 0 at creation (status `queued`) and is
set to 5 together with status `processing` at enqueue time — before any page
completes, so the claim's `[10, 90]` bound does not cover every value
recorded while processing.  After page `k` of `n` completes the recorded
progress is `pageProgress k n = 10 + ⌊80·k/n⌋`, which does lie in
`[10, 90]`; on completion the job is `ready` at progress 100. -/
theorem progress_trace_spec (env : PipelineEnv) (s : Store) (cid jid : String)
    (n : ℕ) (hn : 0 < n)
    (hok : ∀ i, i < n → ∃ p, env.pageResults i = Except.ok p) :
    (runChapterJob env s cid jid n).2.1 =
      [⟨"queued", 0, none, none⟩, ⟨"processing", 5, some cid, none⟩] ++
        ((List.range n).map fun t =>
          ⟨"processing", pageProgress (t + 1) n, some cid, none⟩) ++
        [⟨"ready", 100, some cid, none⟩] ∧
    (∀ k, 1 ≤ k → k ≤ n → 10 ≤ pageProgress k n ∧ pageProgress k n ≤ 90) ∧
    (runChapterJob env s cid jid n).2.2 = Except.ok () ∧
    alistLookup (runChapterJob env s cid jid n).1.jobs jid =
      some ⟨"ready", 100, some cid, none⟩ := by
  have hn' : ¬ n = 0 := by omega
  obtain ⟨sF, pages, heq, hch, hjF⟩ :=
    processPages_ok env n jid n 0 [] (enqueueChapterJob s cid jid).1 []
      ⟨"processing", 5, some cid, none⟩ (enqueue_job_lookup s cid jid)
      (fun t ht => by simpa using hok t ht)
  have hmap : (List.range n).map
      (fun t => (⟨"processing", pageProgress (0 + t + 1) n, some cid, none⟩ : JobRecord)) =
      (List.range n).map
      (fun t => (⟨"processing", pageProgress (t + 1) n, some cid, none⟩ : JobRecord)) := by
    refine List.map_congr_left ?_
    intro t _
    rw [show 0 + t + 1 = t + 1 from by omega]
  have hjF' : alistLookup sF.jobs jid =
      some ⟨"processing", pageProgress n n, some cid, none⟩ := by
    rw [hjF, if_neg hn']
    rw [show 0 + n = n from by omega]
  have hu : updateJob (saveChapter sF cid ⟨"ready", 100, pages⟩) jid
      ⟨some "ready", some 100, none, none⟩ =
      (⟨alistSet sF.jobs jid ⟨"ready", 100, some cid, none⟩,
          (saveChapter sF cid ⟨"ready", 100, pages⟩).chapters⟩,
        ⟨"ready", 100, some cid, none⟩) := by
    unfold updateJob
    rw [show (saveChapter sF cid (⟨"ready", 100, pages⟩ : ChapterRecord)).jobs = sF.jobs
      from rfl, hjF']
    rfl
  refine ⟨?_, fun k hk1 hk2 => pageProgress_bounds k n hn hk2, ?_, ?_⟩
  · show (enqueueChapterJob s cid jid).2 ++
        (processChapter env (enqueueChapterJob s cid jid).1 cid n (some jid)).2.1 = _
    rw [enqueue_trace]
    simp only [processChapter, if_neg hn', heq, hu]
    rw [List.nil_append, hmap]
    simp [List.append_assoc]
  · show (processChapter env (enqueueChapterJob s cid jid).1 cid n (some jid)).2.2 = _
    simp only [processChapter, if_neg hn', heq, hu]
  · show alistLookup
        (processChapter env (enqueueChapterJob s cid jid).1 cid n (some jid)).1.jobs jid = _
    simp only [processChapter, if_neg hn', heq, hu]
    exact alistLookup_set _ _ _

/-- C9 amended, witnessed on a two-page run (progress 50 after page 1, then
90, then `ready`/100), with the `[10, 90]` bound at `k = 1`. -/
theorem progress_trace_spec_witness :
    (runChapterJob c9Env ⟨[], []⟩ "ch1" "job1" 2).2.1 =
      [⟨"queued", 0, none, none⟩, ⟨"processing", 5, some "ch1", none⟩] ++
        ((List.range 2).map fun t =>
          ⟨"processing", pageProgress (t + 1) 2, some "ch1", none⟩) ++
        [⟨"ready", 100, some "ch1", none⟩] ∧
    10 ≤ pageProgress 1 2 ∧ pageProgress 1 2 ≤ 90 :=
  ⟨(progress_trace_spec c9Env ⟨[], []⟩ "ch1" "job1" 2 (by omega)
      (fun i hi => ⟨⟨0, [], []⟩, rfl⟩)).1,
    (progress_trace_spec c9Env ⟨[], []⟩ "ch1" "job1" 2 (by omega)
      (fun i hi => ⟨⟨0, [], []⟩, rfl⟩)).2.1 1 (by omega) (by omega)⟩

end Inkami
